import Mathlib

/-!
Verification of the rusted_realm networking/extractor core against its
natural-language specification.

The Rust sources are embedded shallowly: bytes are `Nat` values (kept
below 256 by construction where it matters), byte buffers are `List Nat`,
machine-integer wraparound is explicit `% 2 ^ w`, fallible operations
return `Except`, and a Rust panic is modelled as a distinct outcome value.
Every definition is translated from the corresponding source item, which is
named in its doc comment.
-/

set_option maxRecDepth 1000000

namespace RustedRealm

/-! ## Big-endian byte helpers

These model `u32::to_be_bytes` / `from_be_bytes` and friends
(rotmg_packets/src/adapter/primitives.rs, bytes crate `get_u32_be`). -/

deriving instance DecidableEq for Except

/-- Big-endian interpretation of a byte list: `foldl (acc * 256 + b)`. -/
def beToNat (l : List Nat) : Nat :=
  l.foldl (fun a b => a * 256 + b) 0

/-- Big-endian bytes of the low `w` bytes of `n` (models `to_be_bytes` of a
`w`-byte machine integer, which truncates to `n % 256 ^ w`). -/
def natToBE : Nat → Nat → List Nat
  | 0, _ => []
  | w + 1, n => natToBE w (n / 256) ++ [n % 256]

theorem beToNat_nil : beToNat [] = 0 := rfl

theorem beToNat_append_single (l : List Nat) (b : Nat) :
    beToNat (l ++ [b]) = beToNat l * 256 + b := by
  simp [beToNat, List.foldl_append]

theorem natToBE_length (w n : Nat) : (natToBE w n).length = w := by
  induction w generalizing n with
  | zero => rfl
  | succ w ih => simp [natToBE, ih]

theorem beToNat_natToBE (w n : Nat) : beToNat (natToBE w n) = n % 256 ^ w := by
  induction w generalizing n with
  | zero => simp [natToBE, beToNat]; omega
  | succ w ih =>
    rw [natToBE, beToNat_append_single, ih]
    rw [pow_succ', Nat.mod_mul]
    ring

theorem beToNat_lt (l : List Nat) (h : ∀ b ∈ l, b < 256) :
    beToNat l < 256 ^ l.length := by
  induction l using List.reverseRecOn with
  | nil => simp [beToNat]
  | append_singleton l b ih =>
    rw [beToNat_append_single]
    have hb : b < 256 := h b (by simp)
    have hl : beToNat l < 256 ^ l.length := ih (fun x hx => h x (by simp [hx]))
    simp only [List.length_append, List.length_singleton]
    calc beToNat l * 256 + b < (beToNat l + 1) * 256 := by omega
    _ ≤ 256 ^ l.length * 256 := by
        exact Nat.mul_le_mul_right 256 (by omega)
    _ = 256 ^ (l.length + 1) := by rw [pow_succ]

/-! ## RC4 stream cipher (rotmg_networking/src/rc4.rs)

The state is two 8-bit indices and a 256-byte table. Rust `u8` wrapping
arithmetic is modelled as `% 256`; `state.swap(a, b)` is `listSwap`. -/

/-- Swap the elements at positions `a` and `b` (models `<[u8]>::swap`; both
indices are always in bounds at every call site below). -/
def listSwap (l : List Nat) (a b : Nat) : List Nat :=
  (l.set a (l.getD b 0)).set b (l.getD a 0)

/-- The state of an RC4 cipher (struct `Rc4` in rc4.rs). -/
structure Rc4 where
  i : Nat
  j : Nat
  state : List Nat
  deriving Repr, DecidableEq

/-- Key schedule of `Rc4::new`: start from the identity table, then for
`i = 0..256` set `j = (j + S[i] + key[i % len]) % 256` and swap `S[i], S[j]`.
The source asserts `1 ≤ key.len() ≤ 256`; those bounds appear as hypotheses
on the theorems below. -/
def rc4New (key : List Nat) : Rc4 :=
  let step := fun (acc : Nat × List Nat) (i : Nat) =>
    let j := (acc.1 + acc.2.getD i 0 + key.getD (i % key.length) 0) % 256
    (j, listSwap acc.2 i j)
  { i := 0, j := 0, state := ((List.range 256).foldl step (0, List.range 256)).2 }

/-- One keystream byte (`Rc4::next`): advance `i` and `j`, swap, output
`S[(S[i] + S[j]) % 256]`. -/
def rc4Next (r : Rc4) : Nat × Rc4 :=
  let i := (r.i + 1) % 256
  let j := (r.j + r.state.getD i 0) % 256
  let s := listSwap r.state i j
  (s.getD ((s.getD i 0 + s.getD j 0) % 256) 0, { i := i, j := j, state := s })

/-- Process a buffer in place (`Rc4::process`): XOR every byte with the next
keystream byte. Returns the transformed bytes together with the advanced
cipher state. -/
def rc4Process (r : Rc4) : List Nat → List Nat × Rc4
  | [] => ([], r)
  | b :: rest =>
    ((b ^^^ (rc4Next r).1) :: (rc4Process (rc4Next r).2 rest).1,
      (rc4Process (rc4Next r).2 rest).2)

/-- Advance the cipher by `n` keystream bytes without XORing any data. -/
def rc4Skip (r : Rc4) : Nat → Rc4
  | 0 => r
  | n + 1 => rc4Skip (rc4Next r).2 n

theorem rc4Process_length (r : Rc4) (xs : List Nat) :
    (rc4Process r xs).1.length = xs.length := by
  induction xs generalizing r with
  | nil => rfl
  | cons b rest ih => simp [rc4Process, ih]

/-- The post-state of `process` depends only on the number of bytes
processed, not on their values: the RC4 keystream is independent of the
data. -/
theorem rc4Process_snd (r : Rc4) (xs : List Nat) :
    (rc4Process r xs).2 = rc4Skip r xs.length := by
  induction xs generalizing r with
  | nil => rfl
  | cons b rest ih => simp [rc4Process, rc4Skip, ih]

/-- Processing a buffer twice from the same starting state restores it:
each byte is XORed twice with the same keystream byte. -/
theorem rc4Process_involutive (r : Rc4) (xs : List Nat) :
    (rc4Process r ((rc4Process r xs).1)).1 = xs := by
  induction xs generalizing r with
  | nil => rfl
  | cons b rest ih =>
    simp only [rc4Process]
    rw [Nat.xor_cancel_right]
    exact congrArg (b :: ·) (ih _)

/-- Sanity check against the first published test vector carried in the
source's own test module (key `"Key"`, plaintext `"Plaintext"`): the
embedding reproduces the RC4 keystream, not merely some XOR scheme. -/
theorem rc4_published_vector :
    (rc4Process (rc4New [75, 101, 121])
      [80, 108, 97, 105, 110, 116, 101, 120, 116]).1 =
    [0xBB, 0xF3, 0x16, 0xE8, 0xD9, 0x40, 0xAF, 0x0A, 0xD3] := by decide

/-! ## Framing codec (rotmg_networking/src/connection/codec.rs) and raw
packets (rotmg_networking/src/connection/raw_packet.rs)

A raw packet is its byte buffer, a `List Nat`. The codec state is the pair
of RC4 ciphers; `decode` takes the receive cipher and the buffered bytes
and returns the optional frame, the remaining buffer, and the advanced
cipher; `encode` returns the written bytes and the advanced send cipher. -/

/-- Constant `RC4_LEN` (mappings.rs): length of the binary RC4 key. -/
def RC4_LEN : Nat := 26

/-- Function `get_ciphers` (codec.rs): split the 26-byte key at
`RC4_LEN / 2 = 13` and key one cipher from each half. -/
def getCiphers (key : List Nat) : Rc4 × Rc4 :=
  (rc4New (key.take (RC4_LEN / 2)), rc4New (key.drop (RC4_LEN / 2)))

/-- Struct `Codec` (codec.rs): the receive and send RC4 ciphers. -/
structure Codec where
  recv_rc4 : Rc4
  send_rc4 : Rc4

/-- Constructor `Codec::new_as_server`: `(recv, send) = get_ciphers(..)`,
so the first key half keys the receive cipher. -/
def Codec.newAsServer (key : List Nat) : Codec :=
  { recv_rc4 := (getCiphers key).1, send_rc4 := (getCiphers key).2 }

/-- Constructor `Codec::new_as_client`: `(send, recv) = get_ciphers(..)`,
so the assignment of the halves is reversed. -/
def Codec.newAsClient (key : List Nat) : Codec :=
  { send_rc4 := (getCiphers key).1, recv_rc4 := (getCiphers key).2 }

/-- Enum `CodecError` (codec.rs). The wrapped IO error is irrelevant here;
`invalidSize` carries the rejected total length. -/
inductive CodecError where
  | ioError
  | invalidSize (n : Nat)
  deriving Repr, DecidableEq

/-- The peeked big-endian `u32` at the front of the buffer
(`Cursor::get_u32_be` in `Codec::decode`). -/
def readU32BE (src : List Nat) : Nat := beToNat (src.take 4)

/-- Method `Decoder::decode` for `Codec`: wait for 4 bytes, peek the total
length, reject lengths below 5, wait for the full frame, then split it off
and decrypt everything after the 5-byte header with the receive cipher. -/
def codecDecode (recv : Rc4) (src : List Nat) :
    Except CodecError (Option (List Nat) × List Nat × Rc4) :=
  if src.length < 4 then
    .ok (none, src, recv)
  else if readU32BE src < 5 then
    .error (.invalidSize (readU32BE src))
  else if src.length < readU32BE src then
    .ok (none, src, recv)
  else
    .ok (some ((src.take (readU32BE src)).take 5 ++
          (rc4Process recv ((src.take (readU32BE src)).drop 5)).1),
        src.drop (readU32BE src),
        (rc4Process recv ((src.take (readU32BE src)).drop 5)).2)

/-- Method `Encoder::encode` for `Codec`: encrypt everything after the
5-byte header with the send cipher and append the frame to the sink. -/
def codecEncode (send : Rc4) (packet : List Nat) : List Nat × Rc4 :=
  (packet.take 5 ++ (rc4Process send (packet.drop 5)).1,
    (rc4Process send (packet.drop 5)).2)

/-- Encode a sequence of frames back to back through one send cipher (the
cipher is stateful across frames). -/
def encodeAll (send : Rc4) : List (List Nat) → List Nat × Rc4
  | [] => ([], send)
  | p :: ps =>
    ((codecEncode send p).1 ++ (encodeAll (codecEncode send p).2 ps).1,
      (encodeAll (codecEncode send p).2 ps).2)

/-- Drive `codecDecode` repeatedly over a buffer, collecting the decoded
frames in order (the receive loop of the connection). -/
def decodeAll : Nat → Rc4 → List Nat → List (List Nat)
  | 0, _, _ => []
  | fuel + 1, recv, src =>
    match codecDecode recv src with
    | .ok (some p, rest, recv1) => p :: decodeAll fuel recv1 rest
    | _ => []

/-- Method `RawPacket::from_packet`, with the wire id (looked up in the
mappings) and the adapter-serialized payload abstracted as arguments: a
4-byte placeholder, the id byte, the payload, and finally the total buffer
length written back over the placeholder as a big-endian `u32` (the `as
u32` cast is the truncation built into `natToBE`). -/
def rawPacketFromPacket (id : Nat) (payload : List Nat) : List Nat :=
  natToBE 4 (([0, 0, 0, 0] ++ id :: payload).length) ++ id :: payload

/-- A frame is well formed when it is at least a header, its length fits a
`u32`, and its first four bytes are the big-endian encoding of its length
(the invariant maintained by both `RawPacket` constructors). -/
def wellFormedFrame (p : List Nat) : Prop :=
  5 ≤ p.length ∧ p.length < 2 ^ 32 ∧ p.take 4 = natToBE 4 p.length

instance (p : List Nat) : Decidable (wellFormedFrame p) := by
  unfold wellFormedFrame; exact inferInstance

theorem codecEncode_length (c : Rc4) (p : List Nat) (h : 5 ≤ p.length) :
    (codecEncode c p).1.length = p.length := by
  simp only [codecEncode, List.length_append, List.length_take,
    rc4Process_length, List.length_drop]
  omega

/-- Decoding one encoded frame from the front of a buffer recovers the
frame, consumes exactly its bytes, and advances the cipher by the payload
length, provided both ciphers start in the same state. -/
theorem codecDecode_codecEncode (c : Rc4) (p rest : List Nat)
    (hwf : wellFormedFrame p) :
    codecDecode c ((codecEncode c p).1 ++ rest) =
      .ok (some p, rest, rc4Skip c (p.length - 5)) := by
  obtain ⟨h5, h32, h4⟩ := hwf
  have htk5 : p.take 5 = (p.take 5 : List Nat) := rfl
  have hlen5 : (p.take 5).length = 5 := by simp [List.length_take]; omega
  have hlenc : (rc4Process c (p.drop 5)).1.length = p.length - 5 := by
    simp [rc4Process_length]
  have hwlen : (codecEncode c p).1.length = p.length := codecEncode_length c p h5
  set enc := (rc4Process c (p.drop 5)).1 with henc
  have hw : (codecEncode c p).1 = p.take 5 ++ enc := rfl
  -- the peeked length field is the frame length
  have htake4 : ((codecEncode c p).1 ++ rest).take 4 = p.take 4 := by
    rw [List.take_append_of_le_length (by omega), hw,
      List.take_append_of_le_length (by omega), List.take_take]
    norm_num
  have hread : readU32BE ((codecEncode c p).1 ++ rest) = p.length := by
    rw [readU32BE, htake4, h4, beToNat_natToBE,
      show (256 : Nat) ^ 4 = 2 ^ 32 from by norm_num]
    exact Nat.mod_eq_of_lt h32
  have hslen : ((codecEncode c p).1 ++ rest).length = p.length + rest.length := by
    simp [hwlen]
  -- the frame is split off exactly
  have hdata : ((codecEncode c p).1 ++ rest).take p.length = (codecEncode c p).1 := by
    rw [← hwlen, List.take_left]
  have hrest : ((codecEncode c p).1 ++ rest).drop p.length = rest := by
    rw [← hwlen, List.drop_left]
  have hA : (p.take 5 ++ enc).take 5 = p.take 5 := by
    rw [List.take_append_of_le_length (by omega), List.take_take]
    norm_num
  have hB : (p.take 5 ++ enc).drop 5 = enc := by
    have h := List.drop_left (p.take 5) enc
    rwa [hlen5] at h
  rw [codecDecode, hread]
  rw [if_neg (by omega), if_neg (by omega), if_neg (by omega),
    hdata, hrest, hw, hA, hB, henc,
    rc4Process_involutive, List.take_append_drop, rc4Process_snd, hlenc]

/-- Decoding the concatenation of encoded frames with a receive cipher that
starts in the same state as the send cipher recovers the frames in order. -/
theorem decodeAll_encodeAll (c : Rc4) (ps : List (List Nat))
    (hwf : ∀ p ∈ ps, wellFormedFrame p) :
    decodeAll ps.length c (encodeAll c ps).1 = ps := by
  induction ps generalizing c with
  | nil => rfl
  | cons p ps ih =>
    have hp : wellFormedFrame p := hwf p (by simp)
    have hps : ∀ q ∈ ps, wellFormedFrame q := fun q hq => hwf q (by simp [hq])
    have hstate : (codecEncode c p).2 = rc4Skip c (p.length - 5) := by
      simp [codecEncode, rc4Process_snd]
    simp only [encodeAll, List.length_cons, decodeAll]
    rw [codecDecode_codecEncode c p _ hp]
    show p :: decodeAll ps.length (rc4Skip c (p.length - 5))
        (encodeAll (codecEncode c p).2 ps).1 = p :: ps
    rw [← hstate, ih _ hps]

/-- C4: for every 26-byte key and every sequence of well-formed frames,
encoding through a server-role codec and decoding through a client-role
codec over the same key recovers the sequence in order; the server receive
cipher is keyed by the first 13 bytes and its send cipher by the last 13,
with the client assignment reversed. -/
theorem c4_server_to_client_stream_roundtrip (key : List Nat)
    (ps : List (List Nat)) (_hkey : key.length = 26)
    (hwf : ∀ p ∈ ps, wellFormedFrame p) :
    (Codec.newAsServer key).recv_rc4 = rc4New (key.take 13) ∧
    (Codec.newAsServer key).send_rc4 = rc4New (key.drop 13) ∧
    (Codec.newAsClient key).send_rc4 = rc4New (key.take 13) ∧
    (Codec.newAsClient key).recv_rc4 = rc4New (key.drop 13) ∧
    decodeAll ps.length (Codec.newAsClient key).recv_rc4
      (encodeAll (Codec.newAsServer key).send_rc4 ps).1 = ps :=
  ⟨rfl, rfl, rfl, rfl, decodeAll_encodeAll _ ps hwf⟩

/-- Witness for C4 at a concrete key and a concrete two-frame sequence. -/
theorem c4_server_to_client_stream_roundtrip_witness :
    ((List.range 26).length = 26 ∧
      ∀ p ∈ [[0, 0, 0, 6, 1, 9], [0, 0, 0, 5, 2]], wellFormedFrame p) ∧
    decodeAll ([[0, 0, 0, 6, 1, 9], [0, 0, 0, 5, 2]] : List (List Nat)).length
      (Codec.newAsClient (List.range 26)).recv_rc4
      (encodeAll (Codec.newAsServer (List.range 26)).send_rc4
        [[0, 0, 0, 6, 1, 9], [0, 0, 0, 5, 2]]).1
      = [[0, 0, 0, 6, 1, 9], [0, 0, 0, 5, 2]] :=
  ⟨⟨by decide, by decide⟩,
    (c4_server_to_client_stream_roundtrip (List.range 26)
      [[0, 0, 0, 6, 1, 9], [0, 0, 0, 5, 2]] (by decide) (by decide)).2.2.2.2⟩

/-- C5: for every key of length 1 to 256 and every byte sequence, applying
the RC4 process operation with a fresh cipher keyed by that key and
applying it again to the result with another fresh cipher keyed the same
way restores the original sequence. -/
theorem c5_rc4_process_mutually_inverse (k x : List Nat)
    (_hlo : 1 ≤ k.length) (_hhi : k.length ≤ 256) :
    (rc4Process (rc4New k) ((rc4Process (rc4New k) x).1)).1 = x :=
  rc4Process_involutive (rc4New k) x

/-- Witness for C5 at a concrete key and message. -/
theorem c5_rc4_process_mutually_inverse_witness :
    (1 ≤ ([3, 1, 4] : List Nat).length ∧ ([3, 1, 4] : List Nat).length ≤ 256) ∧
    (rc4Process (rc4New [3, 1, 4])
      ((rc4Process (rc4New [3, 1, 4]) [10, 20, 30]).1)).1 = [10, 20, 30] :=
  ⟨⟨by decide, by decide⟩,
    c5_rc4_process_mutually_inverse [3, 1, 4] [10, 20, 30] (by decide) (by decide)⟩

/-- C6: the frame decoder waits when fewer than 4 bytes or fewer than
`total_length` bytes are buffered, rejects a peeked length below 5 as
`InvalidSize`, and otherwise emits exactly one frame of `total_length`
bytes, advances the buffer by exactly `total_length`, decrypts only bytes
`5..total_length` with the receive cipher, and leaves the 5-byte header in
clear. -/
theorem c6_frame_decoder (recv : Rc4) (src : List Nat) :
    (src.length < 4 → codecDecode recv src = .ok (none, src, recv)) ∧
    (4 ≤ src.length → readU32BE src < 5 →
      codecDecode recv src = .error (.invalidSize (readU32BE src))) ∧
    (4 ≤ src.length → 5 ≤ readU32BE src → src.length < readU32BE src →
      codecDecode recv src = .ok (none, src, recv)) ∧
    (4 ≤ src.length → 5 ≤ readU32BE src → readU32BE src ≤ src.length →
      codecDecode recv src =
        .ok (some (src.take 5 ++
            (rc4Process recv ((src.take (readU32BE src)).drop 5)).1),
          src.drop (readU32BE src),
          (rc4Process recv ((src.take (readU32BE src)).drop 5)).2) ∧
      (src.take 5 ++
        (rc4Process recv ((src.take (readU32BE src)).drop 5)).1).length
        = readU32BE src) := by
  refine ⟨fun h => by rw [codecDecode, if_pos h], ?_, ?_, ?_⟩
  · intro h4 h5
    rw [codecDecode, if_neg (by omega), if_pos h5]
  · intro h4 h5 hlen
    rw [codecDecode, if_neg (by omega), if_neg (by omega), if_pos hlen]
  · intro h4 h5 hlen
    have htk : (src.take (readU32BE src)).take 5 = src.take 5 := by
      rw [List.take_take, Nat.min_eq_left (by omega)]
    constructor
    · rw [codecDecode, if_neg (by omega), if_neg (by omega),
        if_neg (by omega), htk]
    · simp only [List.length_append, List.length_take, rc4Process_length,
        List.length_drop]
      omega

/-- Witness for C6 at a concrete buffer that decodes to one frame. -/
theorem c6_frame_decoder_witness :
    (4 ≤ ([0, 0, 0, 6, 1, 9] : List Nat).length ∧
      5 ≤ readU32BE [0, 0, 0, 6, 1, 9] ∧
      readU32BE [0, 0, 0, 6, 1, 9] ≤ ([0, 0, 0, 6, 1, 9] : List Nat).length) ∧
    codecDecode (Rc4.mk 0 0 []) [0, 0, 0, 6, 1, 9] =
      .ok (some (([0, 0, 0, 6, 1, 9] : List Nat).take 5 ++
          (rc4Process (Rc4.mk 0 0 [])
            ((([0, 0, 0, 6, 1, 9] : List Nat).take
              (readU32BE [0, 0, 0, 6, 1, 9])).drop 5)).1),
        ([0, 0, 0, 6, 1, 9] : List Nat).drop (readU32BE [0, 0, 0, 6, 1, 9]),
        (rc4Process (Rc4.mk 0 0 [])
          ((([0, 0, 0, 6, 1, 9] : List Nat).take
            (readU32BE [0, 0, 0, 6, 1, 9])).drop 5)).2) :=
  ⟨⟨by decide, by decide, by decide⟩,
    ((c6_frame_decoder (Rc4.mk 0 0 []) [0, 0, 0, 6, 1, 9]).2.2.2
      (by decide) (by decide) (by decide)).1⟩

/-- C10: both raw-packet constructors establish the invariant. The buffer
built by `from_packet` is 5 bytes plus the payload, its first four bytes
are the big-endian total length, byte 4 is the wire id, and bytes 5..
are the payload; every frame emitted by the decoder is at least 5 bytes,
is exactly `total_length` bytes, and the buffer advances by exactly
`total_length`. -/
theorem c10_raw_packet_invariants :
    (∀ id payload,
      5 ≤ (rawPacketFromPacket id payload).length ∧
      (rawPacketFromPacket id payload).length = 5 + payload.length ∧
      (rawPacketFromPacket id payload).take 4 =
        natToBE 4 (rawPacketFromPacket id payload).length ∧
      (rawPacketFromPacket id payload)[4]? = some id ∧
      (rawPacketFromPacket id payload).drop 5 = payload) ∧
    (∀ recv src p rest recv1,
      codecDecode recv src = .ok (some p, rest, recv1) →
      5 ≤ p.length ∧ p.length = readU32BE src ∧
        rest = src.drop (readU32BE src)) := by
  constructor
  · intro id payload
    have hL : ([0, 0, 0, 0] ++ id :: payload).length = 5 + payload.length := by
      simp only [List.length_append, List.length_cons, List.length_nil]
      omega
    have hdef : rawPacketFromPacket id payload =
        natToBE 4 (5 + payload.length) ++ id :: payload := by
      rw [rawPacketFromPacket, hL]
    have hlen : (rawPacketFromPacket id payload).length = 5 + payload.length := by
      rw [hdef]
      simp only [List.length_append, natToBE_length, List.length_cons]
      omega
    refine ⟨by omega, hlen, ?_, ?_, ?_⟩
    · rw [hlen, hdef]
      have h := List.take_left (natToBE 4 (5 + payload.length)) (id :: payload)
      rwa [natToBE_length] at h
    · rw [hdef, List.getElem?_append_right (by simp [natToBE_length])]
      simp [natToBE_length]
    · rw [hdef]
      have h := List.drop_left (natToBE 4 (5 + payload.length) ++ [id]) payload
      simp only [List.append_assoc, List.singleton_append, List.length_append,
        natToBE_length, List.length_singleton] at h
      norm_num at h
      exact h
  · intro recv src p rest recv1 h
    rw [codecDecode] at h
    by_cases h1 : src.length < 4
    · rw [if_pos h1] at h; simp at h
    rw [if_neg h1] at h
    by_cases h2 : readU32BE src < 5
    · rw [if_pos h2] at h; simp at h
    rw [if_neg h2] at h
    by_cases h3 : src.length < readU32BE src
    · rw [if_pos h3] at h; simp at h
    rw [if_neg h3] at h
    simp only [Except.ok.injEq, Prod.mk.injEq, Option.some.injEq] at h
    obtain ⟨hp, hrest, _⟩ := h
    subst hp
    refine ⟨?_, ?_, hrest.symm⟩ <;>
      simp only [List.length_append, List.length_take, rc4Process_length,
        List.length_drop] <;> omega

/-- Witness for C10 (the decoder clause) at a concrete successful decode. -/
theorem c10_raw_packet_invariants_witness :
    codecDecode (Rc4.mk 0 0 []) [0, 0, 0, 6, 1, 9] =
      .ok (some [0, 0, 0, 6, 1, 9], [], Rc4.mk 1 0 []) ∧
    (5 ≤ ([0, 0, 0, 6, 1, 9] : List Nat).length ∧
      ([0, 0, 0, 6, 1, 9] : List Nat).length = readU32BE [0, 0, 0, 6, 1, 9] ∧
      ([] : List Nat) = ([0, 0, 0, 6, 1, 9] : List Nat).drop
        (readU32BE [0, 0, 0, 6, 1, 9])) :=
  ⟨by decide,
    c10_raw_packet_invariants.2 (Rc4.mk 0 0 []) [0, 0, 0, 6, 1, 9]
      [0, 0, 0, 6, 1, 9] [] (Rc4.mk 1 0 []) (by decide)⟩

/-! ## Adapter framework (rotmg_networking/src/adapter/mod.rs and
rotmg_packets/src/adapter/primitives.rs)

A decoder consumes bytes from the front of the buffer and returns the
value together with the remaining bytes; an encoder returns the written
bytes. Numeric values are carried as their unsigned bit patterns. A Rust
panic is modelled as the distinct failure value `Failure.panicked`,
separate from the `Err(...)` values of the source. -/

/-- Enum `Error` (adapter/mod.rs). The `Other` payload is summarized by a
message string. -/
inductive AdapterError where
  | insufficientBytes (remaining needed : Nat)
  | invalidData (msg : String)
  | other (msg : String)
  deriving Repr, DecidableEq

/-- How a decode or encode call can fail: by returning an adapter error,
or by panicking (which no `Result` in the source can represent). -/
inductive Failure where
  | panicked
  | err (e : AdapterError)
  deriving Repr, DecidableEq

/-- The `int_adapter!` `get_be` template: check the remaining length, then
read `width` big-endian bytes. -/
def getIntBE (width : Nat) (bs : List Nat) : Except Failure (Nat × List Nat) :=
  if bs.length < width then .error (.err (.insufficientBytes bs.length width))
  else .ok (beToNat (bs.take width), bs.drop width)

/-- The `int_adapter!` `put_be` template (`to_be_bytes`, truncating to the
machine width); integer encoders never fail. -/
def putIntBE (width n : Nat) : Except Failure (List Nat) :=
  .ok (natToBE width n)

/-- Generic length-carrier for the `S` type parameter of `RLE<T, S>`
(adapters/rle.rs): its `Adapter` encode/decode and its `num` casts
`to_usize` / `from_usize`. -/
structure LenType where
  get : List Nat → Except Failure (Nat × List Nat)
  put : Nat → List Nat
  toUsize : Nat → Option Nat
  fromUsize : Nat → Option Nat

/-- `S = u8`: one length byte; `from_usize` fails above `u8::MAX`. -/
def lenU8 : LenType :=
  ⟨getIntBE 1, natToBE 1, some, fun n => if n < 2 ^ 8 then some n else none⟩

/-- `S = u16` (the default): two length bytes. -/
def lenU16 : LenType :=
  ⟨getIntBE 2, natToBE 2, some, fun n => if n < 2 ^ 16 then some n else none⟩

/-- `S = u32`: four length bytes. -/
def lenU32 : LenType :=
  ⟨getIntBE 4, natToBE 4, some, fun n => if n < 2 ^ 32 then some n else none⟩

/-- Decode `n` consecutive elements (the `(0..len).map(..).collect` loop of
`RLE<Vec<T>, S>::get_be`). -/
def getRepeated {α : Type} (get : List Nat → Except Failure (α × List Nat)) :
    Nat → List Nat → Except Failure (List α × List Nat)
  | 0, bs => .ok ([], bs)
  | n + 1, bs =>
    match get bs with
    | .error e => .error e
    | .ok (x, bs1) =>
      match getRepeated get n bs1 with
      | .error e => .error e
      | .ok (xs, bs2) => .ok (x :: xs, bs2)

/-- Encode the elements in order (`try_for_each` of `RLE<Vec<T>, S>::put_be`). -/
def putEach {α : Type} (put : α → Except Failure (List Nat)) :
    List α → Except Failure (List Nat)
  | [] => .ok []
  | x :: xs =>
    match put x with
    | .error e => .error e
    | .ok b =>
      match putEach put xs with
      | .error e => .error e
      | .ok bb => .ok (b ++ bb)

/-- Method `RLE<Vec<T>, S>::get_be`: decode the length of type `S`, cast
it to `usize`, then decode that many elements. -/
def rleVecGet {α : Type} (s : LenType)
    (get : List Nat → Except Failure (α × List Nat)) (bs : List Nat) :
    Except Failure (List α × List Nat) :=
  match s.get bs with
  | .error e => .error e
  | .ok (len, bs1) =>
    match s.toUsize len with
    | some n => getRepeated get n bs1
    | none => .error (.err (.invalidData ("cannot cast length to usize: " ++ toString len)))

/-- Method `RLE<Vec<T>, S>::put_be`: cast the element count to `S`, then
encode the length and every element. -/
def rleVecPut {α : Type} (s : LenType)
    (put : α → Except Failure (List Nat)) (v : List α) :
    Except Failure (List Nat) :=
  match s.fromUsize v.length with
  | some len =>
    match putEach put v with
    | .error e => .error e
    | .ok body => .ok (s.put len ++ body)
  | none => .error (.err (.invalidData ("cannot cast length from usize: " ++ toString v.length)))

/-- UTF-8 validity of a byte sequence (`String::from_utf8` succeeding),
following the RFC 3629 byte-range table. -/
def isValidUtf8 : List Nat → Bool
  | [] => true
  | b0 :: rest =>
    if b0 ≤ 0x7F then isValidUtf8 rest
    else if 0xC2 ≤ b0 && b0 ≤ 0xDF then
      match rest with
      | b1 :: r => (0x80 ≤ b1 && b1 ≤ 0xBF) && isValidUtf8 r
      | _ => false
    else if b0 = 0xE0 then
      match rest with
      | b1 :: b2 :: r =>
        (0xA0 ≤ b1 && b1 ≤ 0xBF) && (0x80 ≤ b2 && b2 ≤ 0xBF) && isValidUtf8 r
      | _ => false
    else if (0xE1 ≤ b0 && b0 ≤ 0xEC) || b0 = 0xEE || b0 = 0xEF then
      match rest with
      | b1 :: b2 :: r =>
        (0x80 ≤ b1 && b1 ≤ 0xBF) && (0x80 ≤ b2 && b2 ≤ 0xBF) && isValidUtf8 r
      | _ => false
    else if b0 = 0xED then
      match rest with
      | b1 :: b2 :: r =>
        (0x80 ≤ b1 && b1 ≤ 0x9F) && (0x80 ≤ b2 && b2 ≤ 0xBF) && isValidUtf8 r
      | _ => false
    else if b0 = 0xF0 then
      match rest with
      | b1 :: b2 :: b3 :: r =>
        (0x90 ≤ b1 && b1 ≤ 0xBF) && (0x80 ≤ b2 && b2 ≤ 0xBF) &&
          (0x80 ≤ b3 && b3 ≤ 0xBF) && isValidUtf8 r
      | _ => false
    else if 0xF1 ≤ b0 && b0 ≤ 0xF3 then
      match rest with
      | b1 :: b2 :: b3 :: r =>
        (0x80 ≤ b1 && b1 ≤ 0xBF) && (0x80 ≤ b2 && b2 ≤ 0xBF) &&
          (0x80 ≤ b3 && b3 ≤ 0xBF) && isValidUtf8 r
      | _ => false
    else if b0 = 0xF4 then
      match rest with
      | b1 :: b2 :: b3 :: r =>
        (0x80 ≤ b1 && b1 ≤ 0x8F) && (0x80 ≤ b2 && b2 ≤ 0xBF) &&
          (0x80 ≤ b3 && b3 ≤ 0xBF) && isValidUtf8 r
      | _ => false
    else false

/-- Method `RLE<String, S>::get_be`: delegate to the `RLE<Vec<u8>, S>`
decoder, then validate the bytes as UTF-8 (failure is surfaced as `Other`).
The decoded string is carried as its UTF-8 byte sequence. -/
def rleStringGet (s : LenType) (bs : List Nat) :
    Except Failure (List Nat × List Nat) :=
  match rleVecGet s (getIntBE 1) bs with
  | .error e => .error e
  | .ok (bytes, rest) =>
    if isValidUtf8 bytes then .ok (bytes, rest)
    else .error (.err (.other "invalid utf-8 sequence"))

/-- Method `RLE<String, S>::put_be`: cast the byte length to `S`, then the
length and the raw bytes. -/
def rleStringPut (s : LenType) (str : List Nat) : Except Failure (List Nat) :=
  match s.fromUsize str.length with
  | some len => .ok (s.put len ++ str)
  | none => .error (.err (.invalidData ("cannot cast length from usize: " ++ toString str.length)))

/-! ## Stat types and stat data
(rotmg_networking/src/packets/packet_data/stat.rs)

The `#[repr(u8)]` enum `StatType` is modelled by its discriminant byte.
`statTypeDecl` transcribes the `define_stat_types!` invocation in source
order: each entry is the discriminant value paired with `is_str!` of the
declared payload type (`true` for `String`, `false` for `i32`). -/

def statTypeDecl : List (Nat × Bool) := [
  (0, false), (1, false), (2, false), (3, false), (4, false),
  (5, false), (6, false), (7, false), (20, false), (21, false),
  (22, false), (8, false), (9, false), (10, false), (11, false),
  (12, false), (13, false), (14, false), (15, false), (16, false),
  (17, false), (18, false), (19, false), (26, false), (27, false),
  (28, false), (29, false), (30, false), (31, true), (32, false),
  (33, false), (34, false), (35, false), (36, false), (37, false),
  (38, true), (39, false), (40, false), (41, false), (42, false),
  (43, false), (44, false), (45, false), (46, false), (47, false),
  (48, false), (49, false), (50, false), (51, false), (52, false),
  (53, false), (54, true), (55, false), (56, false), (57, false),
  (58, false), (59, false), (60, false), (61, false), (62, true),
  (63, false), (64, false), (65, false), (66, false), (67, false),
  (68, false), (69, false), (70, false), (71, false), (72, false),
  (73, false), (74, false), (75, false), (76, false), (77, false),
  (78, false), (79, false), (80, false), (81, false), (82, true),
  (83, false), (84, false), (85, false), (86, false), (87, false),
  (88, false), (89, false), (90, false), (91, false), (92, false),
  (93, false), (94, false), (95, false), (96, false), (97, false),
  (98, false), (99, false)]

/-- Constant `StatType::VALID_TYPES`: an array of **255** option slots
(`[Option<StatType>; 255]`, not 256), with the slot at each declared
discriminant set to that variant. -/
def VALID_TYPES : List (Option Nat) :=
  statTypeDecl.foldl (fun arr p => arr.set p.1 (some p.1)) (List.replicate 255 none)

/-- Method `StatType::from_byte`, indexing included: the source evaluates
`VALID_TYPES[byte as usize]`, so the outer `none` here is the
out-of-bounds panic (the array has only 255 slots) and the inner option
is the value the method returns. -/
def StatType.fromByte (b : Nat) : Option (Option Nat) := VALID_TYPES[b]?

/-- Method `StatType::is_string`: whether the declared payload type of the
variant is `String`. -/
def StatType.isString (t : Nat) : Bool := (statTypeDecl.lookup t).getD false

/-- The `Adapter::get_be` impl for `StatType`: read one byte, then
`from_byte`, turning `None` into `InvalidData`. A byte of 255 reaches the
out-of-bounds index and panics. -/
def statTypeGet (bs : List Nat) : Except Failure (Nat × List Nat) :=
  match getIntBE 1 bs with
  | .error e => .error e
  | .ok (b, bs1) =>
    match StatType.fromByte b with
    | none => .error .panicked
    | some none => .error (.err (.invalidData ("Unknown stat type: " ++ toString b)))
    | some (some t) => .ok (t, bs1)

/-- The `Adapter::put_be` impl for `StatType` (`to_byte` then `u8::put_be`). -/
def statTypePut (t : Nat) : Except Failure (List Nat) := putIntBE 1 t

/-- Enum `StatData`: a stat tag paired with either a string payload (kept
as UTF-8 bytes) or an `i32` payload (kept as its 32-bit pattern). -/
inductive StatData where
  | string (typ : Nat) (value : List Nat)
  | integer (typ : Nat) (value : Nat)
  deriving Repr, DecidableEq

/-- The `Adapter::get_be` impl for `StatData`: read the stat type byte,
then either a length-prefixed string or a 32-bit integer according to
`is_string`. -/
def statDataGet (bs : List Nat) : Except Failure (StatData × List Nat) :=
  match statTypeGet bs with
  | .error e => .error e
  | .ok (typ, bs1) =>
    if StatType.isString typ then
      match rleStringGet lenU16 bs1 with
      | .error e => .error e
      | .ok (s, bs2) => .ok (.string typ s, bs2)
    else
      match getIntBE 4 bs1 with
      | .error e => .error e
      | .ok (n, bs2) => .ok (.integer typ n, bs2)

/-- The `Adapter::put_be` impl for `StatData`, translated as written: each
branch checks that the payload shape matches the stat type and then
writes only the payload. Note that the stat type byte which `get_be`
reads back is never written. (The source error message prints the Debug
name of the variant; here the discriminant stands in for it.) -/
def statDataPut : StatData → Except Failure (List Nat)
  | .string typ s =>
    if StatType.isString typ then rleStringPut lenU16 s
    else .error (.err (.invalidData ("Stats of type " ++ toString typ ++ " should be strings")))
  | .integer typ n =>
    if !StatType.isString typ then putIntBE 4 n
    else .error (.err (.invalidData ("Stats of type " ++ toString typ ++ " should be integers")))

/-! ## Composite packet data (rotmg_packets/src/packets/data/basic.rs) and
the NewTick packet (packets/definitions.rs)

The `define_data!` and `define_adapter!` macros derive the adapter
field by field in declared order; the translations below inline that
derivation for the types the claims need. Float fields are carried as
their 32-bit patterns. -/

structure WorldPosData where
  x : Nat
  y : Nat
  deriving Repr, DecidableEq

def worldPosDataGet (bs : List Nat) :
    Except Failure (WorldPosData × List Nat) :=
  match getIntBE 4 bs with
  | .error e => .error e
  | .ok (x, bs1) =>
    match getIntBE 4 bs1 with
    | .error e => .error e
    | .ok (y, bs2) => .ok (⟨x, y⟩, bs2)

def worldPosDataPut (v : WorldPosData) : Except Failure (List Nat) :=
  .ok (natToBE 4 v.x ++ natToBE 4 v.y)

structure ObjectStatusData where
  object_id : Nat
  pos : WorldPosData
  stats : List StatData
  deriving Repr, DecidableEq

def objectStatusDataGet (bs : List Nat) :
    Except Failure (ObjectStatusData × List Nat) :=
  match getIntBE 4 bs with
  | .error e => .error e
  | .ok (oid, bs1) =>
    match worldPosDataGet bs1 with
    | .error e => .error e
    | .ok (pos, bs2) =>
      match rleVecGet lenU16 statDataGet bs2 with
      | .error e => .error e
      | .ok (stats, bs3) => .ok (⟨oid, pos, stats⟩, bs3)

def objectStatusDataPut (v : ObjectStatusData) : Except Failure (List Nat) :=
  match worldPosDataPut v.pos with
  | .error e => .error e
  | .ok b2 =>
    match rleVecPut lenU16 statDataPut v.stats with
    | .error e => .error e
    | .ok b3 => .ok (natToBE 4 v.object_id ++ b2 ++ b3)

/-- Struct `NewTick`: `tick_id: u32, tick_time: u32,
statuses: RLE<Vec<ObjectStatusData>>`. -/
structure NewTick where
  tick_id : Nat
  tick_time : Nat
  statuses : List ObjectStatusData
  deriving Repr, DecidableEq

def newTickGet (bs : List Nat) : Except Failure (NewTick × List Nat) :=
  match getIntBE 4 bs with
  | .error e => .error e
  | .ok (tid, bs1) =>
    match getIntBE 4 bs1 with
    | .error e => .error e
    | .ok (tt, bs2) =>
      match rleVecGet lenU16 objectStatusDataGet bs2 with
      | .error e => .error e
      | .ok (sts, bs3) => .ok (⟨tid, tt, sts⟩, bs3)

def newTickPut (v : NewTick) : Except Failure (List Nat) :=
  match rleVecPut lenU16 objectStatusDataPut v.statuses with
  | .error e => .error e
  | .ok b3 => .ok (natToBE 4 v.tick_id ++ natToBE 4 v.tick_time ++ b3)

/-- A well-formed NewTick value carrying one integer stat: every field
constraint of the claim holds (lengths fit the prefixes, no option
fields, no floats compared by value). -/
def c1FailingNewTick : NewTick :=
  ⟨0, 0, [⟨1, ⟨0, 0⟩, [.integer 0 5]⟩]⟩

/-- C1: the encode/decode round trip fails on the code for any packet kind
whose fields contain a `StatData`, because `StatData::put_be` omits the
stat type byte that `get_be` consumes. Evaluating the adapters of the
`NewTick` kind at a well-formed value: encoding succeeds (producing a
buffer with no stat-type byte before the 4-byte integer payload), and
decoding that buffer fails instead of returning the value. -/
theorem c1_roundtrip_fails_for_stat_packets :
    newTickPut c1FailingNewTick =
      .ok [0, 0, 0, 0, 0, 0, 0, 0, 0, 1, 0, 0, 0, 1,
        0, 0, 0, 0, 0, 0, 0, 0, 0, 1, 0, 0, 0, 5] ∧
    newTickGet [0, 0, 0, 0, 0, 0, 0, 0, 0, 1, 0, 0, 0, 1,
        0, 0, 0, 0, 0, 0, 0, 0, 0, 1, 0, 0, 0, 5] =
      .error (.err (.insufficientBytes 3 4)) ∧
    (newTickPut c1FailingNewTick).bind newTickGet ≠
      .ok (c1FailingNewTick, []) := by decide

/-- C2: the `StatData` decoder is not total over the leading byte. For
every undeclared byte below 255 it returns `InvalidData` as the claim
says, but the `VALID_TYPES` table has only 255 slots, so byte 255 indexes
out of bounds and panics instead of returning an error. -/
theorem c2_stat_type_decoder_not_total :
    VALID_TYPES.length = 255 ∧
    StatType.fromByte 255 = none ∧
    statTypeGet [255] = .error .panicked ∧
    (∀ b : Nat, b < 255 → StatType.fromByte b = some none →
      statTypeGet [b] = .error (.err (.invalidData ("Unknown stat type: " ++ toString b)))) := by
  refine ⟨by decide, by decide, by decide, ?_⟩
  intro b _hb h
  have hget : getIntBE 1 [b] = .ok (b, []) := by
    simp [getIntBE, beToNat]
  simp [statTypeGet, hget, h]

/-- Witness for C2 (the InvalidData clause) at the undeclared byte 100. -/
theorem c2_stat_type_decoder_not_total_witness :
    (100 < 255 ∧ StatType.fromByte 100 = some none) ∧
    statTypeGet [100] =
      .error (.err (.invalidData ("Unknown stat type: " ++ toString (100 : Nat)))) :=
  ⟨⟨by decide, by decide⟩,
    c2_stat_type_decoder_not_total.2.2.2 100 (by decide) (by decide)⟩

/-- C9: for every sequence and element encoder, when the element count
does not fit the declared length type (its `from_usize` cast fails), the
encode fails with the `cannot cast length from usize` InvalidData error -
in particular the 300-element sequence with the 8-bit length type, with
the exact source message - while the same sequence with the 16-bit
default succeeds and round-trips through decode; and for any length type
whose decoded length cannot be cast to `usize`, decoding fails with the
`cannot cast length to usize` InvalidData error. -/
theorem c9_rle_length_casts :
    (∀ (α : Type) (s : LenType) (put : α → Except Failure (List Nat))
      (v : List α), s.fromUsize v.length = none →
      rleVecPut s put v =
        .error (.err (.invalidData
          ("cannot cast length from usize: " ++ toString v.length)))) ∧
    rleVecPut lenU8 (putIntBE 2) (List.range 300) =
      .error (.err (.invalidData "cannot cast length from usize: 300")) ∧
    (rleVecPut lenU16 (putIntBE 2) (List.range 300)).bind
      (rleVecGet lenU16 (getIntBE 2)) = .ok (List.range 300, []) ∧
    (∀ (s : LenType) (bs rest : List Nat) (len : Nat),
      s.get bs = .ok (len, rest) → s.toUsize len = none →
      rleVecGet s (getIntBE 2) bs =
        .error (.err (.invalidData ("cannot cast length to usize: " ++ toString len)))) := by
  refine ⟨?_, by decide, by decide, ?_⟩
  · intro α s put v h
    simp [rleVecPut, h]
  · intro s bs rest len h1 h2
    simp [rleVecGet, h1, h2]

/-- A length carrier whose `to_usize` always fails, standing in for an `S`
type whose values may not fit the platform index type. -/
def lenNoUsize : LenType :=
  ⟨fun bs => .ok (7, bs), fun _ => [], fun _ => none, some⟩

/-- Witness for C9: the general encode cast clause at the 8-bit length
type and a 300-element sequence, and the decode cast clause at a concrete
length carrier. -/
theorem c9_rle_length_casts_witness :
    (lenU8.fromUsize (List.range 300).length = none ∧
      rleVecPut lenU8 (putIntBE 2) (List.range 300) =
        .error (.err (.invalidData
          ("cannot cast length from usize: " ++ toString (List.range 300).length)))) ∧
    (lenNoUsize.get [9] = .ok (7, [9]) ∧ lenNoUsize.toUsize 7 = none) ∧
    rleVecGet lenNoUsize (getIntBE 2) [9] =
      .error (.err (.invalidData ("cannot cast length to usize: " ++ toString (7 : Nat)))) :=
  ⟨⟨by decide,
      c9_rle_length_casts.1 Nat lenU8 (putIntBE 2) (List.range 300) (by decide)⟩,
    ⟨rfl, rfl⟩, c9_rle_length_casts.2.2.2 lenNoUsize [9] [9] 7 rfl rfl⟩

/-! ## Policy file requests (rotmg_networking/src/connection/policy.rs)

The handler peeks at the accepted transport without consuming: a peek
returns a prefix of the bytes the OS has buffered (`avail` below) and
leaves all of them available to whatever reads next. -/

/-- Constant `POLICY_REQUEST`: the 23-byte literal
`"<policy-file-request/>\0"`, as byte values. -/
def POLICY_REQUEST : List Nat :=
  "<policy-file-request/>".toList.map Char.toNat ++ [0]

/-- Constant `POLICY_FILE`: the allow-all policy XML, as byte values. The
Rust raw string opens directly onto a newline, so the document starts and
ends with one. -/
def POLICY_FILE : List Nat :=
  ("\n<?xml version=\"1.0\"?>\n<!DOCTYPE cross-domain-policy SYSTEM \"/xml/dtds/cross-domain-policy.dtd\">\n<cross-domain-policy>\n    <site-control permitted-cross-domain-policies=\"all\"/>\n    <allow-access-from domain=\"*\" to-ports=\"*\"/>\n</cross-domain-policy>\n").toList.map Char.toNat

/-- The three ways one iteration of the `loop_fn` body of
`handle_policy_request` can continue. -/
inductive PolicyStep where
  | respond
  | peekMore
  | game
  deriving Repr, DecidableEq

/-- The branch structure of the loop body: full equality with the request
first, then `POLICY_REQUEST.starts_with(&bytes)` (the peeked bytes are a
prefix of the request), otherwise a regular game connection. -/
def policyLoopBody (bytes : List Nat) : PolicyStep :=
  if bytes = POLICY_REQUEST then .respond
  else if POLICY_REQUEST.take bytes.length = bytes then .peekMore
  else .game

/-- What `handle_policy_request` resolves to, with its externally visible
effects: the bytes written to the transport and whether it was shut down
are only nonempty in the `policyHandled` case; `gameConnection` carries
the still-buffered bytes handed to the game codec; `waiting` means the
loop peeks again without writing or consuming anything. -/
inductive PolicyOutcome where
  | policyHandled (written : List Nat) (shutdown : Bool)
  | gameConnection (buffered : List Nat)
  | waiting
  deriving Repr, DecidableEq

/-- Function `handle_policy_request` driven over a transport whose receive
buffer holds `avail`: the loop starts from an empty byte vector, and every
`peek_max(23)` returns `avail.take 23` without consuming. With a stable
`avail` the peeked bytes never change, so the decision after the second
iteration is final; `waiting` models the loop suspending for more bytes. -/
def handlePolicyRequest (avail : List Nat) : PolicyOutcome :=
  match policyLoopBody [] with
  | .respond => .policyHandled POLICY_FILE true
  | .game => .gameConnection avail
  | .peekMore =>
    match policyLoopBody (avail.take POLICY_REQUEST.length) with
    | .respond => .policyHandled POLICY_FILE true
    | .game => .gameConnection avail
    | .peekMore => .waiting

/-- C7: when the transport's initial bytes equal the 23-byte request the
handler writes the policy XML, shuts the transport down and yields no
game connection; when the peeked bytes are not a prefix of the request it
yields the stream with every received byte still buffered; while they are
a proper prefix it keeps peeking without consuming or writing. -/
theorem c7_policy_preamble (avail : List Nat) :
    (avail.take POLICY_REQUEST.length = POLICY_REQUEST →
      handlePolicyRequest avail = .policyHandled POLICY_FILE true) ∧
    (POLICY_REQUEST.take (avail.take POLICY_REQUEST.length).length ≠
        avail.take POLICY_REQUEST.length →
      handlePolicyRequest avail = .gameConnection avail) ∧
    (POLICY_REQUEST.take (avail.take POLICY_REQUEST.length).length =
        avail.take POLICY_REQUEST.length →
      avail.take POLICY_REQUEST.length ≠ POLICY_REQUEST →
      handlePolicyRequest avail = .waiting) := by
  have hbody0 : policyLoopBody [] = .peekMore := by decide
  refine ⟨?_, ?_, ?_⟩
  · intro h
    have hbodyPR : policyLoopBody POLICY_REQUEST = .respond := by decide
    unfold handlePolicyRequest
    rw [hbody0, h, hbodyPR]
  · intro h
    have hne : avail.take POLICY_REQUEST.length ≠ POLICY_REQUEST := by
      intro he
      apply h
      rw [he, List.take_length]
    unfold handlePolicyRequest
    rw [hbody0]
    unfold policyLoopBody
    rw [if_neg hne, if_neg h]
  · intro hpre hne
    unfold handlePolicyRequest
    rw [hbody0]
    unfold policyLoopBody
    rw [if_neg hne, if_pos hpre]

/-- Witness for C7 at a transport whose buffer holds exactly the request. -/
theorem c7_policy_preamble_witness :
    POLICY_REQUEST.take POLICY_REQUEST.length = POLICY_REQUEST ∧
    handlePolicyRequest POLICY_REQUEST = .policyHandled POLICY_FILE true :=
  ⟨by decide, (c7_policy_preamble POLICY_REQUEST).1 (by decide)⟩

/-! ## AVM2 variable-length integers
(rotmg_extractor/src/avm2/primitives.rs) -/

/-- Enum `ParseError` (avm2/mod.rs). -/
inductive ParseError where
  | insufficientBytes (remaining needed : Nat)
  | other (msg : String)
  deriving Repr, DecidableEq

/-- The sequence length computed by the `u32` parser: one plus the number
of leading bytes with the high bit set among the first four remaining
bytes (`bytes().iter().take(4).take_while(b & 0x80 == 0x80).count()`). -/
def u32SeqLength (bs : List Nat) : Nat :=
  1 + ((bs.take 4).takeWhile (fun b => (b &&& 0x80) == 0x80)).length

/-- The `Parse` impl for `u32`: compute the sequence length, require that
many remaining bytes, then sum `(byte_k & 0x7F) << (7 * k)` over the
consumed bytes in `u32` arithmetic (each shift truncates to 32 bits and
the additions wrap, hence the `% 2 ^ 32`). -/
def parseU32 (bs : List Nat) : Except ParseError (Nat × List Nat) :=
  if bs.length < u32SeqLength bs then
    .error (.insufficientBytes bs.length (u32SeqLength bs))
  else
    .ok ((((bs.take (u32SeqLength bs)).enum).map
        (fun p => ((p.2 &&& 0x7F) <<< (7 * p.1)) % 2 ^ 32)).sum % 2 ^ 32,
      bs.drop (u32SeqLength bs))

/-- Reinterpretation of a 32-bit pattern as a signed value (`u32 as i32`). -/
def toI32 (n : Nat) : Int :=
  if n < 2 ^ 31 then (n : Int) else (n : Int) - 2 ^ 32

/-- The `Parse` impl for `i32`: parse the same `u32` and reinterpret the
bits. -/
def parseI32 (bs : List Nat) : Except ParseError (Int × List Nat) :=
  match parseU32 bs with
  | .error e => .error e
  | .ok (v, rest) => .ok (toI32 v, rest)

theorem takeWhile_take_comm {α} (p : α → Bool) (n : Nat) (l : List α) :
    (l.take n).takeWhile p = (l.takeWhile p).take n := by
  induction l generalizing n with
  | nil => simp
  | cons a l ih =>
    cases n with
    | zero => simp
    | succ n =>
      by_cases h : p a
      · simp [List.takeWhile_cons, h, ih]
      · simp [List.takeWhile_cons, h]

theorem sum_map_mod (m : Nat) (l : List Nat) :
    (l.map (fun x => x % m)).sum % m = l.sum % m := by
  induction l with
  | nil => rfl
  | cons a l ih =>
    simp only [List.map_cons, List.sum_cons]
    exact Nat.ModEq.add (Nat.mod_modEq a m) ih

/-- C8: the AVM2 varint reads `1 + leading high-bit bytes` bytes clamped
to 5, fails with InsufficientBytes when fewer remain, returns the lower
32 bits of the sum of the 7-bit groups, decodes the four spec vectors
consuming all input, and `i32` reinterprets the same `u32`. -/
theorem c8_avm2_varint (bs : List Nat) :
    u32SeqLength bs =
      min 5 (1 + (bs.takeWhile (fun b => (b &&& 0x80) == 0x80)).length) ∧
    (bs.length < u32SeqLength bs →
      parseU32 bs = .error (.insufficientBytes bs.length (u32SeqLength bs))) ∧
    (u32SeqLength bs ≤ bs.length →
      parseU32 bs = .ok (
        (((bs.take (u32SeqLength bs)).enum).map
          (fun p => (p.2 &&& 0x7F) <<< (7 * p.1))).sum % 2 ^ 32,
        bs.drop (u32SeqLength bs))) ∧
    (∀ v rest, parseU32 bs = .ok (v, rest) → parseI32 bs = .ok (toI32 v, rest)) ∧
    parseU32 [0x9F, 0x14] = .ok (2591, []) ∧
    parseU32 [0x01] = .ok (1, []) ∧
    parseU32 [0x81, 0x4C] = .ok (9729, []) ∧
    parseU32 [0xF4, 0x05] = .ok (756, []) := by
  refine ⟨?_, fun h => by rw [parseU32, if_pos h], ?_, ?_, by decide, by decide,
    by decide, by decide⟩
  · rw [u32SeqLength, takeWhile_take_comm, List.length_take]
    omega
  · intro h
    rw [parseU32, if_neg (by omega)]
    have hfused : (List.map (fun p : Nat × Nat => ((p.2 &&& 0x7F) <<< (7 * p.1)) % 2 ^ 32)
          ((bs.take (u32SeqLength bs)).enum)).sum % 2 ^ 32 =
        (List.map (fun p : Nat × Nat => (p.2 &&& 0x7F) <<< (7 * p.1))
          ((bs.take (u32SeqLength bs)).enum)).sum % 2 ^ 32 := by
      rw [show (fun p : Nat × Nat => ((p.2 &&& 0x7F) <<< (7 * p.1)) % 2 ^ 32) =
          ((fun x => x % 2 ^ 32) ∘ fun p : Nat × Nat =>
            (p.2 &&& 0x7F) <<< (7 * p.1)) from rfl,
        ← List.map_map, sum_map_mod]
    rw [hfused]
  · intro v rest h
    rw [parseI32, h]

/-- Witness for C8 (the InsufficientBytes clause) at a one-byte buffer
whose high bit demands a second byte. -/
theorem c8_avm2_varint_witness :
    ([0x80] : List Nat).length < u32SeqLength [0x80] ∧
    parseU32 [0x80] =
      .error (.insufficientBytes ([0x80] : List Nat).length (u32SeqLength [0x80])) :=
  ⟨by decide, (c8_avm2_varint [0x80]).2.1 (by decide)⟩

/-! ## RC4 key extraction (rotmg_extractor/src/extractor.rs) and mappings
construction (rotmg_networking/src/mappings.rs) -/

/-- Method `ParsedClient::extract_rc4`: scan the constant-pool string
table with `iter().skip_while(|&s| s != "rc4").nth(1)`. The suffix left by
`skip_while` begins with the matching `"rc4"` entry itself, so `nth(1)` is
the element one past the match; `none` is the `NoRC4Found` error. -/
def extract_rc4 (strings : List String) : Option String :=
  (strings.dropWhile (fun s => s != "rc4"))[1]?

/-- The extraction as the claim words it, for comparison: the second
string after the match, which is the element two past the match. -/
def extract_rc4_second_after (strings : List String) : Option String :=
  (strings.dropWhile (fun s => s != "rc4"))[2]?

/-- Enum `FromHexError` (hex crate). -/
inductive FromHexError where
  | invalidHexCharacter (c : Char) (index : Nat)
  | oddLength
  deriving Repr, DecidableEq

/-- The hex value of one character (`val` in the hex crate). -/
def hexVal (c : Char) : Option Nat :=
  if '0' ≤ c ∧ c ≤ '9' then some (c.toNat - '0'.toNat)
  else if 'a' ≤ c ∧ c ≤ 'f' then some (c.toNat - 'a'.toNat + 10)
  else if 'A' ≤ c ∧ c ≤ 'F' then some (c.toNat - 'A'.toNat + 10)
  else none

/-- Decode hex character pairs to bytes, reporting the index of the first
invalid character (the chunk loop of `hex::decode`). -/
def hexDecodePairs : Nat → List Char → Except FromHexError (List Nat)
  | _, [] => .ok []
  | _, [_] => .error .oddLength
  | idx, c1 :: c2 :: rest =>
    match hexVal c1 with
    | none => .error (.invalidHexCharacter c1 idx)
    | some hi =>
      match hexVal c2 with
      | none => .error (.invalidHexCharacter c2 (idx + 1))
      | some lo =>
        match hexDecodePairs (idx + 2) rest with
        | .error e => .error e
        | .ok bs => .ok ((hi * 16 + lo) :: bs)

/-- Function `hex::decode`: reject odd lengths, then decode pair by pair. -/
def hexDecode (s : String) : Except FromHexError (List Nat) :=
  if s.toList.length % 2 = 1 then .error .oddLength
  else hexDecodePairs 0 s.toList

/-- Enum `RC4KeyError` (mappings.rs). -/
inductive RC4KeyError where
  | invalidRC4Hex (original : String) (e : FromHexError)
  | invalidRC4Len (original : String) (actual : Nat)
  deriving Repr, DecidableEq

/-- Method `Mappings::new`, restricted to its RC4 key handling (the packet
map argument is stored untouched): decode the hex key, failing with
`InvalidRC4Hex` when the hex decode fails and with `InvalidRC4Len` when
the decoded length is not `RC4_LEN = 26`. -/
def mappingsNewRC4 (hex_rc4 : String) : Except RC4KeyError (List Nat) :=
  match hexDecode hex_rc4 with
  | .error e => .error (.invalidRC4Hex hex_rc4 e)
  | .ok b =>
    if b.length ≠ RC4_LEN then .error (.invalidRC4Len hex_rc4 b.length)
    else .ok b

theorem hexDecodePairs_length : ∀ (idx : Nat) (cs : List Char) (bs : List Nat),
    hexDecodePairs idx cs = .ok bs → cs.length = 2 * bs.length
  | idx, [], bs, h => by
    simp only [hexDecodePairs, Except.ok.injEq] at h
    simp [← h]
  | idx, [c], bs, h => by
    simp [hexDecodePairs] at h
  | idx, c1 :: c2 :: rest, bs, h => by
    rw [hexDecodePairs] at h
    cases h1 : hexVal c1 with
    | none => rw [h1] at h; simp at h
    | some hi =>
      rw [h1] at h
      cases h2 : hexVal c2 with
      | none => rw [h2] at h; simp at h
      | some lo =>
        rw [h2] at h
        cases h3 : hexDecodePairs (idx + 2) rest with
        | error e => rw [h3] at h; simp at h
        | ok bs2 =>
          rw [h3] at h
          simp only [Except.ok.injEq] at h
          subst h
          have hr := hexDecodePairs_length (idx + 2) rest bs2 h3
          simp only [List.length_cons]
          omega

theorem dropWhile_append_of_all {α} (p : α → Bool) (l1 l2 : List α)
    (h : ∀ x ∈ l1, p x = true) :
    (l1 ++ l2).dropWhile p = l2.dropWhile p := by
  induction l1 with
  | nil => simp
  | cons a l ih =>
    simp only [List.cons_append, List.dropWhile_cons, h a (by simp)]
    exact ih fun x hx => h x (by simp [hx])

/-- Counterexample to C3 as stated: with string table `["rc4", "A", "B"]`
the extraction returns `"A"`, the string immediately after the match,
whereas the second string after the match is `"B"`. -/
theorem c3_counterexample_second_string :
    extract_rc4 ["rc4", "A", "B"] = some "A" ∧
    extract_rc4_second_after ["rc4", "A", "B"] = some "B" ∧
    extract_rc4 ["rc4", "A", "B"] ≠
      extract_rc4_second_after ["rc4", "A", "B"] := by decide

/-- C3 (amended): the extraction returns the first string after the first
occurrence of `"rc4"` (`nth(1)` of the suffix that starts with the match);
Mappings construction then requires the returned string to be 52 hex
characters decoding to 26 bytes, failing with InvalidRC4Hex on
unparseable hex and with InvalidRC4Len on any other decoded length. -/
theorem c3_rc4_extraction_amended (pre post : List String) (key hex : String)
    (hpre : "rc4" ∉ pre) :
    extract_rc4 (pre ++ "rc4" :: key :: post) = some key ∧
    (∀ e, hexDecode hex = .error e →
      mappingsNewRC4 hex = .error (.invalidRC4Hex hex e)) ∧
    (∀ b, hexDecode hex = .ok b → b.length ≠ 26 →
      mappingsNewRC4 hex = .error (.invalidRC4Len hex b.length)) ∧
    (∀ b, mappingsNewRC4 hex = .ok b ↔ hexDecode hex = .ok b ∧ b.length = 26) ∧
    (∀ b, hexDecode hex = .ok b → hex.toList.length = 2 * b.length) := by
  refine ⟨?_, ?_, ?_, ?_, ?_⟩
  · have hall : ∀ x ∈ pre, (x != "rc4") = true := by
      intro x hx
      have : x ≠ "rc4" := fun he => hpre (he ▸ hx)
      simpa using this
    rw [extract_rc4, dropWhile_append_of_all _ pre _ hall]
    simp [List.dropWhile_cons]
  · intro e he
    rw [mappingsNewRC4, he]
  · intro b hb hlen
    rw [mappingsNewRC4, hb]
    dsimp only
    rw [if_pos (by simpa [RC4_LEN] using hlen)]
  · intro b
    constructor
    · intro h
      rw [mappingsNewRC4] at h
      cases hd : hexDecode hex with
      | error e => rw [hd] at h; simp at h
      | ok b2 =>
        rw [hd] at h
        dsimp only at h
        by_cases hlen : b2.length ≠ RC4_LEN
        · rw [if_pos hlen] at h; simp at h
        · rw [if_neg hlen] at h
          simp only [Except.ok.injEq] at h
          subst h
          exact ⟨rfl, by simpa [RC4_LEN] using hlen⟩
    · rintro ⟨hd, hlen⟩
      rw [mappingsNewRC4, hd]
      dsimp only
      rw [if_neg (by simp [RC4_LEN, hlen])]
  · intro b hb
    rw [hexDecode] at hb
    by_cases hodd : hex.toList.length % 2 = 1
    · rw [if_pos hodd] at hb; simp at hb
    · rw [if_neg hodd] at hb
      exact hexDecodePairs_length 0 hex.toList b hb

/-- Witness for C3 at a concrete string table, a valid 52-character key,
and an invalid hex string. -/
theorem c3_rc4_extraction_amended_witness :
    ("rc4" ∉ (["x"] : List String)) ∧
    extract_rc4 ["x", "rc4", "KEY", "TAIL"] = some "KEY" ∧
    hexDecode "zz" = .error (.invalidHexCharacter 'z' 0) ∧
    mappingsNewRC4 "zz" = .error (.invalidRC4Hex "zz" (.invalidHexCharacter 'z' 0)) :=
  ⟨by decide, (c3_rc4_extraction_amended ["x"] ["TAIL"] "KEY" "zz" (by decide)).1,
    by decide,
    (c3_rc4_extraction_amended ["x"] ["TAIL"] "KEY" "zz" (by decide)).2.1
      (.invalidHexCharacter 'z' 0) (by decide)⟩

end RustedRealm
